import Mathlib

/-!
Verification of the project-graph code-intelligence backend.

Strings are modelled as `List Char` (`Str`).  Each definition below is a
shallow embedding of the correspondingly named JavaScript function from the
repository sources (`graph-builder.js`, `dead-code.js`, `complexity.js`,
`similar-functions.js`, `custom-rules.js`, `tools.js`); external
collaborators (the acorn parser, the file system, the RegExp engine) enter
as explicit data parameters.
-/

abbrev Str := List Char

/-- ASCII lower-case letter test, the character class `[a-z]`. -/
def isLowerAZ (c : Char) : Bool := 'a' ≤ c && c ≤ 'z'

/-- ASCII upper-case letter test, the character class `[A-Z]`. -/
def isUpperAZ (c : Char) : Bool := 'A' ≤ c && c ≤ 'Z'

/-- `String.prototype.toLowerCase` restricted to one ASCII character. -/
def asciiLower (c : Char) : Char :=
  if isUpperAZ c then Char.ofNat (c.toNat + 32) else c

/-- Embedding of `createShortName` (graph-builder.js):
`name.replace(/[a-z]/g,'')` keeps every non-lower-case character; if at
least two remain the first three of them are the code; otherwise the first
`[A-Z]` match (anywhere in the name) follows the lower-cased first
character; otherwise the first two characters verbatim. -/
def createShortName (name : Str) : Str :=
  let upperOnly := name.filter (fun c => !(isLowerAZ c))
  if 2 ≤ upperOnly.length then upperOnly.take 3
  else
    match name.filter isUpperAZ, name with
    | u :: _, c :: _ => [asciiLower c, u]
    | _, _ => name.take 2

/-- The short-code derivation exactly as the specification words it: count
only upper-case letters for the PascalCase branch, and in the camelCase
branch use the first upper-case letter found after position 0. -/
def specShortName (name : Str) : Str :=
  let uppers := name.filter isUpperAZ
  if 2 ≤ uppers.length then uppers.take 3
  else
    match (name.drop 1).filter isUpperAZ, name with
    | u :: _, c :: _ => [asciiLower c, u]
    | _, _ => name.take 2

/-- The short-code derivation as amended: the PascalCase branch counts every
non-lower-case character (digits and punctuation included, as
`replace(/[a-z]/g,'')` leaves them in), and the camelCase branch uses the
first upper-case letter found anywhere, position 0 included. -/
def amendedShortName (name : Str) : Str :=
  if 2 ≤ name.countP (fun c => !(isLowerAZ c)) then
    (name.filter (fun c => !(isLowerAZ c))).take 3
  else
    match name.find? isUpperAZ, name.head? with
    | some u, some c => [asciiLower c, u]
    | _, _ => name.take 2

/-- `l.find? p` returns the head of the filtered list. -/
theorem findP_eq_filter_head (p : α → Bool) (l : List α) :
    l.find? p = (l.filter p).head? := by
  induction l with
  | nil => rfl
  | cons a l ih =>
    by_cases h : p a
    · rw [List.find?_cons_of_pos _ h, List.filter_cons_of_pos h]
      rfl
    · rw [List.find?_cons_of_neg _ h, List.filter_cons_of_neg (by simpa using h)]
      exact ih

example : createShortName "SymNode".toList = "SN".toList := by decide
example : createShortName "togglePin".toList = "tP".toList := by decide
example : createShortName "autoArrange".toList = "aA".toList := by decide
example : createShortName "SymNodeGraph".toList = "SNG".toList := by decide
example : createShortName "Abc".toList = "aA".toList := by decide
example : specShortName "Abc".toList = "Ab".toList := by decide
example : createShortName "a1B".toList = "1B".toList := by decide
example : specShortName "a1B".toList = "aB".toList := by decide

/-- C2 (counterexample): the short-code derivation as the specification
words it disagrees with `createShortName` on `"Abc"` (code yields `"aA"`,
the spec's rules yield `"Ab"`) and on `"a1B"` (code yields `"1B"`, the
spec's rules yield `"aB"`). -/
theorem createShortName_deviates_from_spec :
    createShortName "Abc".toList ≠ specShortName "Abc".toList ∧
      createShortName "a1B".toList ≠ specShortName "a1B".toList := by
  decide

/-- C2 (amended): for every name, the base short-code is: the first three
non-lower-case characters when the name has at least two of them; else the
first character lower-cased followed by the first upper-case letter found
anywhere in the name (position 0 included) when one exists; else the first
two characters verbatim. -/
theorem createShortName_matches_amended_spec (name : Str) :
    createShortName name = amendedShortName name := by
  unfold createShortName amendedShortName
  rw [List.countP_eq_length_filter, findP_eq_filter_head]
  cases hf : name.filter isUpperAZ <;> cases name <;> simp

/-! ### Decimal rendering of collision suffixes

In `minifyLegend` a colliding base code gets an increasing integer suffix
appended (`short + suffix` in JavaScript stringifies the number in
decimal).  `natToChars` models that decimal rendering. -/

/-- Decimal digits of a natural number, most significant first. -/
def natToDigits (n : Nat) : List Nat :=
  if n < 10 then [n] else natToDigits (n / 10) ++ [n % 10]
decreasing_by exact Nat.div_lt_self (by omega) (by omega)

/-- One decimal digit as a character. -/
def digitChar : Nat → Char
  | 0 => '0' | 1 => '1' | 2 => '2' | 3 => '3' | 4 => '4'
  | 5 => '5' | 6 => '6' | 7 => '7' | 8 => '8' | _ => '9'

/-- Inverse of `digitChar` on decimal digits. -/
def charToDigit : Char → Nat
  | '0' => 0 | '1' => 1 | '2' => 2 | '3' => 3 | '4' => 4
  | '5' => 5 | '6' => 6 | '7' => 7 | '8' => 8 | _ => 9

/-- Decimal rendering of a natural number. -/
def natToChars (n : Nat) : Str := (natToDigits n).map digitChar

/-- Value of a digit list, most significant first. -/
def digitsVal (l : List Nat) : Nat := l.foldl (fun a d => 10 * a + d) 0

theorem digitsVal_append_single (l : List Nat) (d : Nat) :
    digitsVal (l ++ [d]) = 10 * digitsVal l + d := by
  unfold digitsVal
  rw [List.foldl_append]
  rfl

theorem digitsVal_natToDigits (n : Nat) : digitsVal (natToDigits n) = n := by
  induction n using Nat.strong_induction_on with
  | _ n ih =>
    rw [natToDigits]
    split
    · simp [digitsVal]
    · rw [digitsVal_append_single, ih (n / 10) (Nat.div_lt_self (by omega) (by omega))]
      omega

theorem natToDigits_injective : Function.Injective natToDigits := by
  intro a b h
  have := digitsVal_natToDigits a
  rw [h, digitsVal_natToDigits] at this
  omega

theorem natToDigits_lt_ten (n : Nat) : ∀ d ∈ natToDigits n, d < 10 := by
  induction n using Nat.strong_induction_on with
  | _ n ih =>
    rw [natToDigits]
    split
    · intro d hd
      simp at hd
      omega
    · intro d hd
      rw [List.mem_append] at hd
      rcases hd with hd | hd
      · exact ih (n / 10) (Nat.div_lt_self (by omega) (by omega)) d hd
      · simp at hd
        omega

theorem charToDigit_digitChar : ∀ d, d < 10 → charToDigit (digitChar d) = d := by
  decide

theorem natToChars_injective : Function.Injective natToChars := by
  intro a b h
  apply natToDigits_injective
  have ha : (natToChars a).map charToDigit = natToDigits a := by
    rw [natToChars, List.map_map]
    have : ∀ d ∈ natToDigits a, (charToDigit ∘ digitChar) d = id d := by
      intro d hd
      exact charToDigit_digitChar d (natToDigits_lt_ten a d hd)
    rw [List.map_congr_left this, List.map_id]
  have hb : (natToChars b).map charToDigit = natToDigits b := by
    rw [natToChars, List.map_map]
    have : ∀ d ∈ natToDigits b, (charToDigit ∘ digitChar) d = id d := by
      intro d hd
      exact charToDigit_digitChar d (natToDigits_lt_ten b d hd)
    rw [List.map_congr_left this, List.map_id]
  rw [← ha, ← hb, h]

/-- There is always some integer suffix whose decimal rendering appended to
`base` avoids the finite `used` set. -/
theorem exists_fresh_suffix (base : Str) (used : List Str) :
    ∃ k, base ++ natToChars (k + 1) ∉ used := by
  by_contra hall
  push_neg at hall
  have hinj : Function.Injective fun k : Fin (used.length + 1) =>
      base ++ natToChars (k.1 + 1) := by
    intro i j hij
    have h2 : natToChars (i.1 + 1) = natToChars (j.1 + 1) :=
      List.append_cancel_left hij
    have := natToChars_injective h2
    exact Fin.ext (by omega)
  have hmaps : ∀ i : Fin (used.length + 1),
      (base ++ natToChars (i.1 + 1)) ∈ used.toFinset := by
    intro i
    rw [List.mem_toFinset]
    exact hall i.1
  have hc : used.toFinset.card <
      (Finset.univ : Finset (Fin (used.length + 1))).card := by
    rw [Finset.card_univ, Fintype.card_fin]
    exact Nat.lt_succ_of_le used.toFinset_card_le
  obtain ⟨i, _, j, _, hne, heq⟩ :=
    Finset.exists_ne_map_eq_of_card_lt_of_maps_to hc (fun i _ => hmaps i)
  exact hne (hinj heq)

/-- Embedding of the collision loop inside `minifyLegend`
(graph-builder.js): try the base code, then `base + 1`, `base + 2`, … and
keep the first candidate not yet in `used`. -/
def freshCode (base : Str) (used : List Str) : Str :=
  if base ∈ used then
    base ++ natToChars (Nat.find (exists_fresh_suffix base used) + 1)
  else base

theorem freshCode_not_mem (base : Str) (used : List Str) :
    freshCode base used ∉ used := by
  unfold freshCode
  split
  · exact Nat.find_spec (exists_fresh_suffix base used)
  · assumption

/-- JavaScript object property assignment `legend[name] = short`: replace
the value when the key is present, else append the new pair. -/
def legendSet (legend : List (Str × Str)) (k v : Str) : List (Str × Str) :=
  if legend.any (fun p => p.1 = k) then
    legend.map (fun p => if p.1 = k then (k, v) else p)
  else legend ++ [(k, v)]

/-- The loop body of `minifyLegend` (graph-builder.js): for each name in
order, derive the short code, resolve collisions against `used`, record the
pair and mark the code used. -/
def minifyLegendGo : List Str → List (Str × Str) → List Str → List (Str × Str)
  | [], legend, _ => legend
  | name :: rest, legend, used =>
    let short := freshCode (createShortName name) used
    minifyLegendGo rest (legendSet legend name short) (short :: used)

/-- Embedding of `minifyLegend` (graph-builder.js): the full-name → code
mapping, as the ordered association list the JavaScript object holds. -/
def minifyLegend (names : List Str) : List (Str × Str) :=
  minifyLegendGo names [] []

theorem minifyLegendGo_snd_nodup :
    ∀ (names : List Str) (legend : List (Str × Str)) (used : List Str),
      (legend.map Prod.snd).Nodup →
      (∀ c ∈ legend.map Prod.snd, c ∈ used) →
      (∀ p ∈ legend, p.1 ∉ names) →
      names.Nodup →
      ((minifyLegendGo names legend used).map Prod.snd).Nodup
  | [], _, _, h1, _, _, _ => h1
  | name :: rest, legend, used, h1, h2, h3, h4 => by
    rw [minifyLegendGo]
    have hkey : legend.any (fun p => p.1 = name) = false := by
      rw [List.any_eq_false]
      intro p hp
      simpa using fun e => (h3 p hp) (by rw [e]; exact List.mem_cons_self _ _)
    have hset : legendSet legend name (freshCode (createShortName name) used) =
        legend ++ [(name, freshCode (createShortName name) used)] := by
      unfold legendSet
      rw [hkey]
      simp
    rw [hset]
    apply minifyLegendGo_snd_nodup
    · rw [List.map_append, List.nodup_append]
      refine ⟨h1, List.nodup_singleton _, ?_⟩
      intro c hc hc'
      simp at hc'
      exact freshCode_not_mem (createShortName name) used (hc' ▸ h2 c hc)
    · intro c hc
      rw [List.map_append, List.mem_append] at hc
      rcases hc with hc | hc
      · exact List.mem_cons_of_mem _ (h2 c hc)
      · simp at hc
        rw [hc]
        exact List.mem_cons_self _ _
    · intro p hp
      rw [List.mem_append] at hp
      rcases hp with hp | hp
      · exact fun hmem => (h3 p hp) (List.mem_cons_of_mem _ hmem)
      · simp at hp
        rw [hp]
        exact (List.nodup_cons.mp h4).1
    · exact (List.nodup_cons.mp h4).2

/-- C1: for a list of pairwise-distinct names, the legend built by
`minifyLegend` maps distinct full names to distinct short codes, and
rebuilding from the same ordered list reproduces the identical mapping
(the construction is a pure function of the ordered name list). -/
theorem minifyLegend_injective_and_deterministic
    (names : List Str) (hnd : names.Nodup) :
    (∀ p ∈ minifyLegend names, ∀ q ∈ minifyLegend names,
        p.1 ≠ q.1 → p.2 ≠ q.2) ∧
      minifyLegend names = minifyLegend names := by
  refine ⟨?_, rfl⟩
  have hnodup : ((minifyLegend names).map Prod.snd).Nodup :=
    minifyLegendGo_snd_nodup names [] [] (by simp) (by simp) (by simp) hnd
  intro p hp q hq hne heq
  exact hne (congrArg Prod.fst (List.inj_on_of_nodup_map hnodup hp hq heq))

/-- C1 (witness): the injectivity theorem applied to the concrete
pairwise-distinct name list `["SymNode", "SymNew", "togglePin"]`. -/
theorem minifyLegend_injective_witness :
    ["SymNode".toList, "SymNew".toList, "togglePin".toList].Nodup ∧
      (∀ p ∈ minifyLegend ["SymNode".toList, "SymNew".toList, "togglePin".toList],
        ∀ q ∈ minifyLegend ["SymNode".toList, "SymNew".toList, "togglePin".toList],
          p.1 ≠ q.1 → p.2 ≠ q.2) :=
  ⟨by decide,
    (minifyLegend_injective_and_deterministic _ (by decide)).1⟩

/-! ### Syntax-tree model

The acorn parser is an external collaborator; its output is modelled as a
rose tree of nodes, each carrying the ESTree node kind (with the payloads
the analyzers inspect: the `test` presence of a switch case and the
operator of logical/binary expressions) and the child nodes.
`walk.simple` visits every node of the tree. -/

inductive NodeKind where
  | ifStmt
  | conditional
  | forStmt
  | forOf
  | forIn
  | whileStmt
  | doWhile
  | switchStmt
  | switchCase (hasTest : Bool)
  | logical (op : Str)
  | binary (op : Str)
  | catchClause
  | tryStmt
  | returnStmt
  | throwStmt
  | awaitExpr
  | other (tag : Str)
deriving DecidableEq

inductive JSNode where
  | mk (kind : NodeKind) (children : List JSNode)

def JSNode.kind : JSNode → NodeKind
  | .mk k _ => k

def JSNode.children : JSNode → List JSNode
  | .mk _ cs => cs

/-- Increment contributed by one visited node in `calculateComplexity`
(complexity.js): the `walk.simple` handlers for branching, loops,
non-default switch cases, `&&`/`||`, `??` and catch clauses. -/
def complexityInc : NodeKind → Nat
  | .ifStmt => 1
  | .conditional => 1
  | .forStmt => 1
  | .forOf => 1
  | .forIn => 1
  | .whileStmt => 1
  | .doWhile => 1
  | .switchCase hasTest => if hasTest then 1 else 0
  | .logical op => if op = "&&".toList ∨ op = "||".toList then 1 else 0
  | .binary op => if op = "??".toList then 1 else 0
  | .catchClause => 1
  | _ => 0

mutual

def complexityCount : JSNode → Nat
  | .mk k cs => complexityInc k + complexityCountList cs

def complexityCountList : List JSNode → Nat
  | [] => 0
  | n :: rest => complexityCount n + complexityCountList rest

end

/-- Embedding of `calculateComplexity` (complexity.js): base 1 plus the
increments accumulated while walking the whole body tree. -/
def calculateComplexity (body : JSNode) : Nat := 1 + complexityCount body

/-- Embedding of `getRating` (complexity.js). -/
def getRating (complexity : Nat) : Str :=
  if complexity ≤ 5 then "low".toList
  else if complexity ≤ 10 then "moderate".toList
  else if complexity ≤ 20 then "high".toList
  else "critical".toList

mutual

def allNodes : JSNode → List JSNode
  | .mk k cs => .mk k cs :: allNodesList cs

def allNodesList : List JSNode → List JSNode
  | [] => []
  | n :: rest => allNodes n ++ allNodesList rest

end

def isIfKind : NodeKind → Bool
  | .ifStmt => true
  | _ => false

def isTernaryKind : NodeKind → Bool
  | .conditional => true
  | _ => false

def isLoopKind : NodeKind → Bool
  | .forStmt => true
  | .forOf => true
  | .forIn => true
  | .whileStmt => true
  | .doWhile => true
  | _ => false

def isNonDefaultCaseKind : NodeKind → Bool
  | .switchCase hasTest => hasTest
  | _ => false

def isAndOrKind : NodeKind → Bool
  | .logical op => op = "&&".toList || op = "||".toList
  | _ => false

def isNullishKind : NodeKind → Bool
  | .binary op => op = "??".toList
  | _ => false

def isCatchKind : NodeKind → Bool
  | .catchClause => true
  | _ => false

/-- Number of nodes of the body tree whose kind satisfies `p`. -/
def countKind (p : NodeKind → Bool) (body : JSNode) : Nat :=
  (allNodes body).countP (fun n => p n.kind)

theorem complexityInc_split (k : NodeKind) :
    complexityInc k =
      (if isIfKind k then 1 else 0) + (if isTernaryKind k then 1 else 0) +
      (if isLoopKind k then 1 else 0) + (if isNonDefaultCaseKind k then 1 else 0) +
      (if isAndOrKind k then 1 else 0) + (if isNullishKind k then 1 else 0) +
      (if isCatchKind k then 1 else 0) := by
  cases k <;>
    simp [complexityInc, isIfKind, isTernaryKind, isLoopKind,
      isNonDefaultCaseKind, isAndOrKind, isNullishKind, isCatchKind]

theorem sum_complexityInc_eq_counts (L : List JSNode) :
    (L.map (fun m => complexityInc m.kind)).sum =
      L.countP (fun m => isIfKind m.kind) + L.countP (fun m => isTernaryKind m.kind) +
      L.countP (fun m => isLoopKind m.kind) + L.countP (fun m => isNonDefaultCaseKind m.kind) +
      L.countP (fun m => isAndOrKind m.kind) + L.countP (fun m => isNullishKind m.kind) +
      L.countP (fun m => isCatchKind m.kind) := by
  induction L with
  | nil => rfl
  | cons n rest ih =>
    rw [List.map_cons, List.sum_cons, ih]
    rw [List.countP_cons, List.countP_cons, List.countP_cons, List.countP_cons,
      List.countP_cons, List.countP_cons, List.countP_cons]
    rw [complexityInc_split n.kind]
    omega

mutual

theorem complexityCount_eq_sum (n : JSNode) :
    complexityCount n = ((allNodes n).map (fun m => complexityInc m.kind)).sum := by
  match n with
  | .mk k cs =>
    rw [complexityCount, allNodes, List.map_cons, List.sum_cons,
      complexityCountList_eq_sum cs]
    rfl

theorem complexityCountList_eq_sum (l : List JSNode) :
    complexityCountList l = ((allNodesList l).map (fun m => complexityInc m.kind)).sum := by
  match l with
  | [] => rfl
  | n :: rest =>
    rw [complexityCountList, allNodesList, List.map_append, List.sum_append,
      complexityCount_eq_sum n, complexityCountList_eq_sum rest]

end

/-- A block body containing exactly one `if` statement. -/
def oneIfBody : JSNode :=
  .mk (.other "BlockStatement".toList) [.mk .ifStmt []]

/-- A block body containing six independent `if` statements. -/
def sixIfBody : JSNode :=
  .mk (.other "BlockStatement".toList) (List.replicate 6 (.mk .ifStmt []))

/-- C5: the complexity score is 1 plus one per `if`, ternary, loop,
non-default switch case, `&&`/`||` expression, nullish-coalescing use and
catch clause in the body; the rating bands are ≤5 low, ≤10 moderate,
≤20 high, >20 critical; one `if` scores 2 and six independent `if`s
score 7. -/
theorem calculateComplexity_counts_and_bands :
    (∀ body : JSNode, calculateComplexity body =
        1 + countKind isIfKind body + countKind isTernaryKind body +
          countKind isLoopKind body + countKind isNonDefaultCaseKind body +
          countKind isAndOrKind body + countKind isNullishKind body +
          countKind isCatchKind body) ∧
      (∀ n, n ≤ 5 → getRating n = "low".toList) ∧
      (∀ n, 5 < n → n ≤ 10 → getRating n = "moderate".toList) ∧
      (∀ n, 10 < n → n ≤ 20 → getRating n = "high".toList) ∧
      (∀ n, 20 < n → getRating n = "critical".toList) ∧
      calculateComplexity oneIfBody = 2 ∧
      calculateComplexity sixIfBody = 7 := by
  refine ⟨?_, ?_, ?_, ?_, ?_, ?_, ?_⟩
  · intro body
    rw [calculateComplexity, complexityCount_eq_sum,
      sum_complexityInc_eq_counts]
    unfold countKind
    omega
  · intro n h
    unfold getRating
    rw [if_pos h]
  · intro n h h'
    unfold getRating
    rw [if_neg (by omega), if_pos h']
  · intro n h h'
    unfold getRating
    rw [if_neg (by omega), if_neg (by omega), if_pos h']
  · intro n h
    unfold getRating
    rw [if_neg (by omega), if_neg (by omega), if_neg (by omega)]
  · simp [oneIfBody, calculateComplexity, complexityCount,
      complexityCountList, complexityInc]
  · simp [sixIfBody, calculateComplexity, complexityCount,
      complexityCountList, complexityInc, List.replicate]

/-- C5 (witness): the band theorems applied at the two concrete bodies:
one `if` rates "low", six `if`s rate "moderate". -/
theorem calculateComplexity_witness :
    getRating (calculateComplexity oneIfBody) = "low".toList ∧
      getRating (calculateComplexity sixIfBody) = "moderate".toList := by
  obtain ⟨-, hlow, hmod, -, -, h1, h6⟩ := calculateComplexity_counts_and_bands
  rw [h1, h6]
  exact ⟨hlow 2 (by omega), hmod 7 (by omega) (by omega)⟩

/-! ### Similar-function detection (similar-functions.js) -/

/-- JavaScript `Math.round(num / den)` for non-negative operands:
round-half-up, i.e. `⌊num/den + 1/2⌋`. -/
def jsRound (num den : Nat) : Nat := (2 * num + den) / (2 * den)

theorem jsRound_mul (c n : Nat) (h : 0 < n) : jsRound (c * n) n = c := by
  unfold jsRound
  rw [Nat.div_eq_of_lt_le] <;> ring_nf <;> omega

/-- `String.prototype.split` on a one-character separator. -/
def strSplitAux (sep : Char) : Str → Str → List Str
  | [], acc => [acc.reverse]
  | c :: rest, acc =>
    if c = sep then acc.reverse :: strSplitAux sep rest []
    else strSplitAux sep rest (c :: acc)

def strSplit (sep : Char) (s : Str) : List Str := strSplitAux sep s []

/-- `Array.prototype.join(', ')`. -/
def strJoinComma (l : List Str) : Str := (List.intersperse ", ".toList l).flatten

/-- `Array.prototype.join('|')`. -/
def strJoinPipe (l : List Str) : Str := (List.intersperse ['|'] l).flatten

/-- The per-function signature record built by `buildSignature`
(similar-functions.js).  The acorn-level extraction is the external
parser's side; the record is the analyzer's input. -/
structure FunctionSignature where
  name : Str
  file : Str
  line : Nat
  paramCount : Nat
  paramNames : List Str
  async : Bool
  bodyHash : Str
  calls : List Str
deriving DecidableEq

/-- Embedding of `hashBodyStructure` (similar-functions.js): the ordered
control-flow token sequence of the body, joined with `|`. -/
def hashTokenOf : NodeKind → Option Str
  | .ifStmt => some "IF".toList
  | .forStmt => some "FOR".toList
  | .forOf => some "FOROF".toList
  | .forIn => some "FORIN".toList
  | .whileStmt => some "WHILE".toList
  | .switchStmt => some "SWITCH".toList
  | .tryStmt => some "TRY".toList
  | .returnStmt => some "RET".toList
  | .throwStmt => some "THROW".toList
  | .awaitExpr => some "AWAIT".toList
  | _ => none

def hashBodyStructure (body : JSNode) : Str :=
  strJoinPipe (((allNodes body).filterMap (fun n => hashTokenOf n.kind)))

/-- `commonParams` of `calculateSimilarity` (similar-functions.js). -/
def commonParamsOf (a b : FunctionSignature) : List Str :=
  a.paramNames.filter (fun p => p ∈ b.paramNames)

/-- `commonCalls` of `calculateSimilarity` (similar-functions.js). -/
def commonCallsOf (a b : FunctionSignature) : List Str :=
  a.calls.filter (fun c => c ∈ b.calls)

/-- Same-param-count block of `calculateSimilarity`: worth 30. -/
def simScore1 (a b : FunctionSignature) : Nat :=
  if a.paramCount = b.paramCount then 30 else 0

def simReasons1 (a b : FunctionSignature) : List Str :=
  if a.paramCount = b.paramCount then ["Same param count".toList] else []

/-- Param-name-overlap block of `calculateSimilarity`: overlap ratio × 20. -/
def simScore2 (a b : FunctionSignature) : Nat :=
  if 0 < (commonParamsOf a b).length ∧ 0 < a.paramNames.length then
    jsRound ((commonParamsOf a b).length * 20)
      (max a.paramNames.length b.paramNames.length)
  else 0

def simReasons2 (a b : FunctionSignature) : List Str :=
  if 0 < (commonParamsOf a b).length ∧ 0 < a.paramNames.length then
    if max a.paramNames.length b.paramNames.length ≤ 2 * (commonParamsOf a b).length then
      ["Similar params: ".toList ++ strJoinComma (commonParamsOf a b)]
    else []
  else []

/-- Same-async block of `calculateSimilarity`: worth 10, no reason pushed. -/
def simScore3 (a b : FunctionSignature) : Nat :=
  if a.async = b.async then 10 else 0

/-- Body-structure block of `calculateSimilarity`: 25 for identical
non-empty hashes, else token-overlap ratio × 25. -/
def simScore4 (a b : FunctionSignature) : Nat :=
  if a.bodyHash = b.bodyHash ∧ 0 < a.bodyHash.length then 25
  else if 0 < a.bodyHash.length ∧ 0 < b.bodyHash.length then
    let aTokens := strSplit '|' a.bodyHash
    let bTokens := strSplit '|' b.bodyHash
    let commonTokens := aTokens.filter (fun t => t ∈ bTokens)
    if 0 < commonTokens.length then
      jsRound (commonTokens.length * 25) (max aTokens.length bTokens.length)
    else 0
  else 0

def simReasons4 (a b : FunctionSignature) : List Str :=
  if a.bodyHash = b.bodyHash ∧ 0 < a.bodyHash.length then
    ["Identical structure".toList]
  else if 0 < a.bodyHash.length ∧ 0 < b.bodyHash.length then
    let aTokens := strSplit '|' a.bodyHash
    let bTokens := strSplit '|' b.bodyHash
    let commonTokens := aTokens.filter (fun t => t ∈ bTokens)
    if 0 < commonTokens.length then
      if max aTokens.length bTokens.length ≤ 2 * commonTokens.length then
        ["Similar control flow".toList]
      else []
    else []
  else []

/-- Call-overlap block of `calculateSimilarity`: overlap ratio × 15. -/
def simScore5 (a b : FunctionSignature) : Nat :=
  if 0 < (commonCallsOf a b).length ∧ 0 < a.calls.length ∧ 0 < b.calls.length then
    jsRound ((commonCallsOf a b).length * 15) (max a.calls.length b.calls.length)
  else 0

def simReasons5 (a b : FunctionSignature) : List Str :=
  if 0 < (commonCallsOf a b).length ∧ 0 < a.calls.length ∧ 0 < b.calls.length then
    if 2 ≤ (commonCallsOf a b).length then
      ["Common calls: ".toList ++ strJoinComma ((commonCallsOf a b).take 3)]
    else []
  else []

/-- Embedding of `calculateSimilarity` (similar-functions.js): the 0–100
similarity score together with the reasons list — the five scoring blocks
accumulated in source order, `maxScore` totalling 30+20+10+25+15 = 100,
and `Math.round(score / maxScore * 100)` as the final score. -/
def calculateSimilarity (a b : FunctionSignature) : Nat × List Str :=
  let score := simScore1 a b + simScore2 a b + simScore3 a b +
    simScore4 a b + simScore5 a b
  let maxScore := 30 + 20 + 10 + 25 + 15
  (jsRound (score * 100) maxScore,
    simReasons1 a b ++ simReasons2 a b ++ simReasons4 a b ++ simReasons5 a b)

theorem calculateSimilarity_fst (a b : FunctionSignature) :
    (calculateSimilarity a b).1 = simScore1 a b + simScore2 a b +
      simScore3 a b + simScore4 a b + simScore5 a b := by
  show jsRound (_ * 100) (30 + 20 + 10 + 25 + 15) = _
  exact jsRound_mul _ 100 (by norm_num)

/-- The inner pair test of `getSimilarFunctions` (similar-functions.js):
skip same-file-same-name pairs and pairs whose structural hashes are both
shorter than 3 characters, then keep the pair when the similarity reaches
the threshold and at least one reason was recorded. -/
def similarPairCheck (threshold : Nat) (a b : FunctionSignature) : Bool :=
  if a.file = b.file ∧ a.name = b.name then false
  else if a.bodyHash.length < 3 ∧ b.bodyHash.length < 3 then false
  else
    let r := calculateSimilarity a b
    decide (threshold ≤ r.1) && !r.2.isEmpty

/-- All index pairs `i < j` of the signature list, in loop order. -/
def pairsAux : List FunctionSignature → List (FunctionSignature × FunctionSignature)
  | [] => []
  | a :: rest => rest.map (fun b => (a, b)) ++ pairsAux rest

/-- The pair classification of `getSimilarFunctions` (similar-functions.js),
before the descending sort and the 20-pair cap. -/
def getSimilarPairs (threshold : Nat) (sigs : List FunctionSignature) :
    List (FunctionSignature × FunctionSignature) :=
  (pairsAux sigs).filter (fun p => similarPairCheck threshold p.1 p.2)

theorem filter_mem_self (l : List Str) :
    l.filter (fun x => x ∈ l) = l :=
  List.filter_eq_self.mpr (fun a ha => by simpa using ha)

/-- Signature of a one-parameter, call-free function with structural hash
`IF|RET` in file `a.js`. -/
def simSigA : FunctionSignature :=
  ⟨"copyA".toList, "a.js".toList, 1, 1, ["x".toList], false, "IF|RET".toList, []⟩

/-- Same shape as `simSigA` under a different name in file `b.js`. -/
def simSigB : FunctionSignature :=
  ⟨"copyB".toList, "b.js".toList, 5, 1, ["x".toList], false, "IF|RET".toList, []⟩

/-- C6 (counterexample): `simSigA`/`simSigB` have identical parameter
lists, identical async flag and the identical non-trivial structural hash
`IF|RET`, yet `calculateSimilarity` scores the pair 85, not 100 (the
call-overlap block contributes 0 when both call sets are empty). -/
theorem calculateSimilarity_not_always_100 :
    simSigA.paramNames = simSigB.paramNames ∧
      simSigA.paramCount = simSigB.paramCount ∧
      simSigA.async = simSigB.async ∧
      simSigA.bodyHash = simSigB.bodyHash ∧
      3 ≤ simSigA.bodyHash.length ∧
      (calculateSimilarity simSigA simSigB).1 = 85 ∧
      (calculateSimilarity simSigA simSigB).1 ≠ 100 := by
  decide


/-- C6 (amended): a pair with identical parameter lists, identical async
flag and identical non-trivial structural hash scores at least 65 — at
least 85 when the shared parameter list is non-empty, and exactly 100 when
additionally the call-name sets are equal and non-empty — and (unless it
is a same-file-same-name pair) is reported at the default threshold 60;
a pair sharing only the parameter count (no shared parameter names,
different async flags, different hashes with no shared tokens, no shared
call names) scores 30, below 60, and is not reported. -/
theorem calculateSimilarity_amended :
    (∀ a b : FunctionSignature,
        a.paramCount = b.paramCount → a.paramNames = b.paramNames →
        a.async = b.async → a.bodyHash = b.bodyHash →
        3 ≤ a.bodyHash.length →
        (65 ≤ (calculateSimilarity a b).1 ∧
          (a.paramNames ≠ [] → 85 ≤ (calculateSimilarity a b).1) ∧
          (a.paramNames ≠ [] → a.calls = b.calls → a.calls ≠ [] →
            (calculateSimilarity a b).1 = 100) ∧
          (¬(a.file = b.file ∧ a.name = b.name) →
            similarPairCheck 60 a b = true))) ∧
      (∀ a b : FunctionSignature,
        a.paramCount = b.paramCount →
        commonParamsOf a b = [] →
        a.async ≠ b.async →
        a.bodyHash ≠ b.bodyHash →
        (strSplit '|' a.bodyHash).filter (fun t => t ∈ strSplit '|' b.bodyHash) = [] →
        commonCallsOf a b = [] →
        ((calculateSimilarity a b).1 = 30 ∧ similarPairCheck 60 a b = false)) := by
  constructor
  · intro a b hpc hpn has hh hlen
    have h1 : simScore1 a b = 30 := if_pos hpc
    have h3 : simScore3 a b = 10 := if_pos has
    have h4 : simScore4 a b = 25 := if_pos ⟨hh, by omega⟩
    have hcp : commonParamsOf a b = a.paramNames := by
      unfold commonParamsOf
      rw [hpn]
      exact filter_mem_self _
    have h2 : simScore2 a b = if a.paramNames = [] then 0 else 20 := by
      unfold simScore2
      rw [hcp, ← hpn]
      rcases Classical.em (a.paramNames = []) with he | he
      · rw [if_pos he]
        simp [he]
      · have hp : 0 < a.paramNames.length := List.length_pos.mpr he
        rw [if_pos ⟨hp, hp⟩, if_neg he, Nat.max_self, Nat.mul_comm,
          jsRound_mul _ _ hp]
    have h5full : a.calls = b.calls → a.calls ≠ [] → simScore5 a b = 15 := by
      intro hceq hcne
      have hcc : commonCallsOf a b = a.calls := by
        unfold commonCallsOf
        rw [hceq]
        exact filter_mem_self _
      have hp : 0 < a.calls.length := List.length_pos.mpr hcne
      unfold simScore5
      rw [hcc, ← hceq, if_pos ⟨hp, hp, hp⟩, Nat.max_self, Nat.mul_comm,
        jsRound_mul _ _ hp]
    refine ⟨?_, ?_, ?_, ?_⟩
    · rw [calculateSimilarity_fst, h1, h3, h4]
      omega
    · intro hne
      rw [calculateSimilarity_fst, h1, h2, h3, h4, if_neg hne]
      omega
    · intro hne hceq hcne
      rw [calculateSimilarity_fst, h1, h2, h3, h4, h5full hceq hcne, if_neg hne]
    · intro hnot
      unfold similarPairCheck
      rw [if_neg hnot,
        if_neg (show ¬(a.bodyHash.length < 3 ∧ b.bodyHash.length < 3) by omega)]
      have hs : 60 ≤ (calculateSimilarity a b).1 := by
        rw [calculateSimilarity_fst, h1, h3, h4]
        omega
      have hr1 : simReasons1 a b = ["Same param count".toList] := if_pos hpc
      have hr : (calculateSimilarity a b).2 ≠ [] := by
        show simReasons1 a b ++ simReasons2 a b ++ simReasons4 a b ++
          simReasons5 a b ≠ []
        simp [hr1]
      simp [hs, hr]
  · intro a b hpc hcp hna hnh htok hcc
    have h1 : simScore1 a b = 30 := if_pos hpc
    have h2 : simScore2 a b = 0 := by
      unfold simScore2
      rw [hcp]
      simp
    have h3 : simScore3 a b = 0 := if_neg hna
    have h4 : simScore4 a b = 0 := by
      unfold simScore4
      rw [if_neg (fun hcon => hnh hcon.1)]
      split
      · simp only [htok]
        simp
      · rfl
    have h5 : simScore5 a b = 0 := by
      unfold simScore5
      rw [hcc]
      simp
    have hsc : (calculateSimilarity a b).1 = 30 := by
      rw [calculateSimilarity_fst, h1, h2, h3, h4, h5]
    refine ⟨hsc, ?_⟩
    unfold similarPairCheck
    split
    · rfl
    · split
      · rfl
      · simp [hsc]

/-- C6 (witness): the amended theorem applied to the concrete pair
`simSigA`/`simSigB` (identical non-empty parameter lists, same async flag,
identical hash `IF|RET`, empty call sets): scored at least 85 and reported
at the default threshold 60. -/
theorem calculateSimilarity_amended_witness :
    85 ≤ (calculateSimilarity simSigA simSigB).1 ∧
      similarPairCheck 60 simSigA simSigB = true := by
  obtain ⟨hA, -⟩ := calculateSimilarity_amended
  have h := hA simSigA simSigB (by decide) (by decide) (by decide) (by decide)
    (by decide)
  exact ⟨h.2.1 (by decide), h.2.2.2 (by decide)⟩

/-! ### The `expand` tool (tools.js)

`getGraph`/`parseProject` read the project through the file system; their
results (the graph's reverse legend and the parsed class list) are passed
in as data, and `extractMethod` over the file contents enters as an opaque
function, so `expand` is the pure decision logic of tools.js. -/

/-- One parsed class record as `parseProject` produces it. -/
structure ClassInfo where
  name : Str
  file : Str
  line : Nat
  extendsClass : Option Str
  methods : List Str
  properties : List Str
  calls : List Str
deriving DecidableEq

/-- JavaScript object lookup `m[k]` on a string-keyed record. -/
def lookupAssoc (m : List (Str × Str)) (k : Str) : Option Str :=
  (m.find? (fun p => p.1 = k)).map Prod.snd

inductive ExpandResult where
  | err (msg : Str)
  | methodInfo (symbol fullName file : Str) (line : Nat) (code : Str)
  | classInfo (symbol fullName file : Str) (line : Nat)
      (extendsClass : Option Str) (methods properties calls : List Str)
deriving DecidableEq

/-- The error message `expand` builds for an unknown short-code. -/
def unknownSymbolMessage (symbol : Str) : Str :=
  "Unknown symbol: ".toList ++ symbol ++
    (". Run get_skeleton on your project first, then use symbols " ++
      "from the L (Legend) field.").toList

/-- Embedding of `expand` (tools.js): split the symbol on `.`, look the
node key up in the reverse legend, and answer with a structured error
record (never an exception — the function is total) when the short-code is
absent; otherwise return the class info, or the method extract when a
non-empty method key follows the dot. -/
def expand (reverseLegend : List (Str × Str)) (classes : List ClassInfo)
    (extract : Str → Str → Str) (symbol : Str) : ExpandResult :=
  let parts := strSplit '.' symbol
  let nodeKey := parts.getD 0 []
  match lookupAssoc reverseLegend nodeKey with
  | none => .err (unknownSymbolMessage symbol)
  | some fullName =>
    match classes.find? (fun c => c.name = fullName) with
    | none => .err ("Class not found: ".toList ++ fullName)
    | some cls =>
      match parts.get? 1 with
      | some methodKey =>
        if methodKey = [] then
          .classInfo symbol fullName cls.file cls.line cls.extendsClass
            cls.methods cls.properties cls.calls
        else
          let methodName := (lookupAssoc reverseLegend methodKey).getD methodKey
          .methodInfo symbol (fullName ++ '.' :: methodName) cls.file cls.line
            (extract cls.file methodName)
      | none =>
        .classInfo symbol fullName cls.file cls.line cls.extendsClass
          cls.methods cls.properties cls.calls

/-- C9: when the symbol's node key is absent from the current graph's
reverse legend, `expand` returns the structured error payload carrying the
human-readable unknown-symbol message — it does not raise. -/
theorem expand_unknown_symbol_err (reverseLegend : List (Str × Str))
    (classes : List ClassInfo) (extract : Str → Str → Str) (symbol : Str)
    (h : lookupAssoc reverseLegend ((strSplit '.' symbol).getD 0 []) = none) :
    expand reverseLegend classes extract symbol =
      .err (unknownSymbolMessage symbol) := by
  unfold expand
  simp only []
  rw [h]

/-- C9 (witness): `expand` on the empty legend with symbol `XY` yields the
unknown-symbol error payload. -/
theorem expand_unknown_symbol_err_witness :
    lookupAssoc [] ((strSplit '.' "XY".toList).getD 0 []) = none ∧
      expand [] [] (fun _ _ => []) "XY".toList =
        .err (unknownSymbolMessage "XY".toList) :=
  ⟨rfl, expand_unknown_symbol_err [] [] (fun _ _ => []) "XY".toList rfl⟩

/-! ### Custom rule engine (custom-rules.js) -/

/-- The single-quote character `'`. -/
def squoteChar : Char := Char.ofNat 39

/-- The backquote character. -/
def backquoteChar : Char := Char.ofNat 96

/-- `String.prototype.indexOf`: index of the first occurrence of `pat` in
`s`, `none` standing for JavaScript's `-1`. -/
def strIndexOf? (s pat : Str) : Option Nat :=
  if pat.isPrefixOf s then some 0
  else
    match s with
    | [] => none
    | _ :: rest => (strIndexOf? rest pat).map (fun n => n + 1)

/-- `String.prototype.indexOf` with a start position. -/
def strIndexOfFrom? (s pat : Str) (start : Nat) : Option Nat :=
  (strIndexOf? (s.drop start) pat).map (fun n => n + start)

/-- The left-to-right quote scan of `isInStringOrComment`
(custom-rules.js): walk the prefix before the match position carrying the
previous character and the open quote character (JavaScript's
`inString`/`stringChar` pair), toggling on unescaped `"`, `'`
and backquote. -/
def scanStringState : Str → Option Char → Option Char → Bool
  | [], _, st => st.isSome
  | c :: rest, prev, st =>
    let st' :=
      match st with
      | none =>
        if c = '"' ∨ c = squoteChar ∨ c = backquoteChar then some c else none
      | some q => if c = q ∧ prev ≠ some '\\' then none else some q
    scanStringState rest (some c) st'

/-- Embedding of `isInStringOrComment` (custom-rules.js): true when the
match position lies after the first `//` of the line, or when the quote
scan over the prefix ends inside an open string literal. -/
def isInStringOrComment (line : Str) (matchIndex : Nat) : Bool :=
  match strIndexOf? line ['/', '/'] with
  | some commentIndex =>
    if commentIndex < matchIndex then true
    else scanStringState (line.take matchIndex) none none
  | none => scanStringState (line.take matchIndex) none none

/-- The inner position loop of `isWithinContext` (custom-rules.js): scan
one line from `pos`, counting opening and closing tags.  The JavaScript
`while` advances `pos` past each found tag; the fuel argument (the line
length suffices for non-empty tags) makes the recursion structural. -/
def scanTagLine (openTag closeTag line : Str) :
    Nat → Nat → Int → Int
  | 0, _, depth => depth
  | fuel + 1, pos, depth =>
    match strIndexOfFrom? line openTag pos, strIndexOfFrom? line closeTag pos with
    | none, none => depth
    | some oi, none =>
      scanTagLine openTag closeTag line fuel (oi + openTag.length) (depth + 1)
    | none, some ci =>
      scanTagLine openTag closeTag line fuel (ci + closeTag.length) (depth - 1)
    | some oi, some ci =>
      if oi < ci then
        scanTagLine openTag closeTag line fuel (oi + openTag.length) (depth + 1)
      else
        scanTagLine openTag closeTag line fuel (ci + closeTag.length) (depth - 1)

/-- Embedding of `isWithinContext` (custom-rules.js): the nesting depth of
the required tag pair accumulated from the file start through the
candidate line is positive. -/
def isWithinContext (lines : List Str) (lineIndex : Nat) (contextTag : Str) :
    Bool :=
  let openTag := contextTag
  let tagName := openTag.filter (fun c => !(c = '<' ∨ c = '>'))
  let closeTag := '<' :: '/' :: (tagName ++ ['>'])
  let depth := (lines.take (lineIndex + 1)).foldl
    (fun d line => scanTagLine openTag closeTag line (line.length + 1) 0 d) 0
  0 < depth

inductive Severity where
  | error
  | warning
  | info
deriving DecidableEq

/-- The pattern of a Rule: a literal string, or a regex whose matching is
delegated to the external RegExp engine, modelled as the list of
successive matches (offset, matched text) it yields on a line. -/
inductive PatternSpec where
  | strPat (pattern : Str)
  | regexPat (pattern : Str) (matcher : Str → List (Nat × Str))

/-- A rule record (custom-rules.js), fields as the JSON store holds them. -/
structure Rule where
  id : Str
  name : Str
  pattern : PatternSpec
  replacement : Str
  severity : Severity
  exclude : List Str
  contextRequired : Option Str

structure Violation where
  ruleId : Str
  ruleName : Str
  severity : Severity
  file : Str
  line : Nat
  matchText : Str
  replacement : Str
deriving DecidableEq

/-- `pattern.replace('*', '')`: JavaScript string-argument replace removes
only the first occurrence. -/
def removeFirstChar (c : Char) : Str → Str
  | [] => []
  | x :: rest => if x = c then rest else x :: removeFirstChar c rest

/-- Embedding of `isExcluded` (custom-rules.js). -/
def isExcluded (filePath : Str) (excludePatterns : List Str) : Bool :=
  excludePatterns.any (fun pattern =>
    (removeFirstChar '*' pattern).isSuffixOf filePath)

/-- The per-line match of `checkFileAgainstRule` (custom-rules.js): for a
literal rule the first `indexOf` position, discarded when inside a string
or comment; for a regex rule the first engine match whose offset survives
the same test. -/
def lineMatchOf (rule : Rule) (line : Str) : Option Str :=
  match rule.pattern with
  | .strPat pat =>
    match strIndexOf? line pat with
    | some idx => if isInStringOrComment line idx then none else some pat
    | none => none
  | .regexPat _ matcher =>
    ((matcher line).find? (fun m => !(isInStringOrComment line m.1))).map
      Prod.snd

/-- Embedding of `checkFileAgainstRule` (custom-rules.js): one violation
per matching line (1-based line numbers), dropped when the rule demands a
markup context the line is not inside, or when the file path matches an
exclude pattern. -/
def checkFileAgainstRule (filePath relPath : Str) (rule : Rule)
    (lines : List Str) : List Violation :=
  if isExcluded filePath rule.exclude then []
  else
    lines.enum.filterMap (fun p =>
      match lineMatchOf rule p.2 with
      | none => none
      | some matchText =>
        match rule.contextRequired with
        | some tag =>
          if isWithinContext lines p.1 tag then
            some ⟨rule.id, rule.name, rule.severity, relPath, p.1 + 1,
              matchText, rule.replacement⟩
          else none
        | none =>
          some ⟨rule.id, rule.name, rule.severity, relPath, p.1 + 1,
            matchText, rule.replacement⟩)

theorem lineMatchOf_strPat (rule : Rule) (pat line : Str)
    (hpat : rule.pattern = .strPat pat) :
    lineMatchOf rule line =
      (match strIndexOf? line pat with
        | some idx => if isInStringOrComment line idx then none else some pat
        | none => none) := by
  unfold lineMatchOf
  rw [hpat]

/-- For a literal rule without required markup context on a non-excluded
file, a violation is produced for a line exactly when the first `indexOf`
position of the pattern on that line survives the string/comment test. -/
theorem checkFileLineMemIff (filePath relPath : Str) (rule : Rule)
    (pat : Str) (lines : List Str) (i : Nat)
    (hpat : rule.pattern = .strPat pat) (hctx : rule.contextRequired = none)
    (hexc : isExcluded filePath rule.exclude = false) :
    (∃ v ∈ checkFileAgainstRule filePath relPath rule lines, v.line = i + 1) ↔
      (i < lines.length ∧
        ((strIndexOf? (lines.getD i []) pat).any
          (fun idx => !(isInStringOrComment (lines.getD i []) idx))) = true) := by
  unfold checkFileAgainstRule
  rw [if_neg (by simp [hexc])]
  constructor
  · rintro ⟨v, hv, hline⟩
    rw [List.mem_filterMap] at hv
    obtain ⟨⟨j, line⟩, hmem, hf⟩ := hv
    rw [List.mem_enum_iff_getElem?] at hmem
    simp only at hmem
    simp only [lineMatchOf_strPat rule pat line hpat, hctx] at hf
    cases hidx : strIndexOf? line pat with
    | none =>
      simp [hidx] at hf
    | some idx =>
      cases hs : isInStringOrComment line idx with
      | true =>
        simp [hidx, hs] at hf
      | false =>
        simp only [hidx, hs, Bool.false_eq_true, if_false] at hf
        have hveq : v = ⟨rule.id, rule.name, rule.severity, relPath, j + 1,
            pat, rule.replacement⟩ := by
          cases hf
          rfl
        have hji : j = i := by
          rw [hveq] at hline
          simpa using hline
        subst hji
        have hlen : j < lines.length := by
          by_contra hcon
          rw [List.getElem?_eq_none (by omega)] at hmem
          cases hmem
        have hgetd : lines.getD j [] = line := by
          rw [List.getD_eq_getElem?_getD, hmem]
          rfl
        refine ⟨hlen, ?_⟩
        rw [hgetd, hidx]
        simp [hs]
  · rintro ⟨hlen, hany⟩
    cases hidx : strIndexOf? (lines.getD i []) pat with
    | none =>
      rw [hidx] at hany
      simp [Option.any] at hany
    | some idx =>
      rw [hidx] at hany
      simp only [Option.any, Bool.not_eq_true'] at hany
      refine ⟨⟨rule.id, rule.name, rule.severity, relPath, i + 1,
        pat, rule.replacement⟩, ?_, rfl⟩
      rw [List.mem_filterMap]
      refine ⟨(i, lines.getD i []), ?_, ?_⟩
      · rw [List.mem_enum_iff_getElem?]
        simp only
        rw [List.getElem?_eq_getElem hlen, List.getD_eq_getElem?_getD,
          List.getElem?_eq_getElem hlen]
        rfl
      · simp only [lineMatchOf_strPat rule pat _ hpat, hctx, hidx, hany,
          Bool.false_eq_true, if_false]

/-- C7: for a literal rule without required markup context on a
non-excluded file, a line yields a violation exactly when the pattern's
match offset on that line is NOT inside a single-line comment or an open
string literal — a match inside a string or comment produces no violation,
the same pattern live on another line does. -/
theorem ruleMatch_string_comment_gate (filePath relPath : Str) (rule : Rule)
    (pat : Str) (lines : List Str) (i : Nat)
    (hpat : rule.pattern = .strPat pat) (hctx : rule.contextRequired = none)
    (hexc : isExcluded filePath rule.exclude = false) :
    (∃ v ∈ checkFileAgainstRule filePath relPath rule lines, v.line = i + 1) ↔
      (i < lines.length ∧
        ((strIndexOf? (lines.getD i []) pat).any
          (fun idx => !(isInStringOrComment (lines.getD i []) idx))) = true) :=
  checkFileLineMemIff filePath relPath rule pat lines i hpat hctx hexc

/-- A literal warning rule looking for `fooBar` in js files. -/
def demoRule : Rule :=
  ⟨"no-foo".toList, "No fooBar".toList, .strPat "fooBar".toList,
    "baz".toList, .warning, [], none⟩

/-- A two-line file: the pattern inside a quoted string on line 1, the
same pattern live on line 2. -/
def demoLines : List Str :=
  ["const s = \"fooBar\"".toList, "fooBar()".toList]

/-- C7 (witness): on `demoLines`, the quoted occurrence on line 1 yields
no violation and the live occurrence on line 2 yields one. -/
theorem ruleMatch_gate_witness :
    (∃ v ∈ checkFileAgainstRule "a.js".toList "a.js".toList demoRule
      demoLines, v.line = 2) ∧
      ¬(∃ v ∈ checkFileAgainstRule "a.js".toList "a.js".toList demoRule
        demoLines, v.line = 1) := by
  constructor
  · exact (ruleMatch_string_comment_gate "a.js".toList "a.js".toList demoRule
      "fooBar".toList demoLines 1 rfl rfl rfl).mpr (by decide)
  · intro hcon
    have := (ruleMatch_string_comment_gate "a.js".toList "a.js".toList demoRule
      "fooBar".toList demoLines 0 rfl rfl rfl).mp hcon
    exact absurd this (by decide)

/-- C10: the comment check of `isInStringOrComment` is a plain `indexOf`
for `//`: any match offset after the first `//` of the line is treated as
commented — even when that `//` sits inside a string literal — so a
literal-rule match after it never yields a violation for that line. -/
theorem commentMarker_inside_string_discards :
    (∀ line idx ci, strIndexOf? line ['/', '/'] = some ci → ci < idx →
        isInStringOrComment line idx = true) ∧
      (∀ filePath relPath : Str, ∀ rule : Rule, ∀ pat : Str,
        ∀ lines : List Str, ∀ i ci idx : Nat,
        rule.pattern = .strPat pat → rule.contextRequired = none →
        strIndexOf? (lines.getD i []) ['/', '/'] = some ci →
        strIndexOf? (lines.getD i []) pat = some idx → ci < idx →
        ¬∃ v ∈ checkFileAgainstRule filePath relPath rule lines,
          v.line = i + 1) := by
  have hgen : ∀ line idx ci, strIndexOf? line ['/', '/'] = some ci →
      ci < idx → isInStringOrComment line idx = true := by
    intro line idx ci hci hlt
    unfold isInStringOrComment
    rw [hci]
    simp [hlt]
  refine ⟨hgen, ?_⟩
  intro filePath relPath rule pat lines i ci idx hpat hctx hci hidx hlt hcon
  cases hexc : isExcluded filePath rule.exclude with
  | true =>
    obtain ⟨v, hv, -⟩ := hcon
    unfold checkFileAgainstRule at hv
    rw [if_pos hexc] at hv
    simp at hv
  | false =>
    obtain ⟨-, hany⟩ :=
      (checkFileLineMemIff filePath relPath rule pat lines i hpat hctx
        hexc).mp hcon
    rw [hidx] at hany
    simp only [Option.any] at hany
    rw [hgen _ _ _ hci hlt] at hany
    simp at hany

/-- A one-line file whose string literal contains a URL with `//`,
followed by a live occurrence of the pattern on the same line. -/
def urlLines : List Str :=
  ["const u = \"http://x\"; fooBar()".toList]

/-- C10 (witness): on `urlLines` the live `fooBar()` call after the
URL-carrying string yields no violation, because its offset 22 lies after
the `//` of `http://` at offset 16. -/
theorem commentMarker_witness :
    ¬∃ v ∈ checkFileAgainstRule "a.js".toList "a.js".toList demoRule
      urlLines, v.line = 1 := by
  obtain ⟨-, hb⟩ := commentMarker_inside_string_discards
  exact hb "a.js".toList "a.js".toList demoRule "fooBar".toList urlLines 0 16 22
    rfl rfl (by decide) (by decide) (by omega)

/-- The dedup key `file:line:match` of `checkCustomRules`
(custom-rules.js). -/
def violationKey (v : Violation) : Str × Nat × Str :=
  (v.file, v.line, v.matchText)

/-- The dedup filter of `checkCustomRules` (custom-rules.js): keep a
violation when its key was not seen yet, accumulating the `seen` set. -/
def dedupViolations : List Violation → List (Str × Nat × Str) → List Violation
  | [], _ => []
  | v :: rest, seen =>
    if violationKey v ∈ seen then dedupViolations rest seen
    else v :: dedupViolations rest (violationKey v :: seen)

/-- The `severityOrder` table of `checkCustomRules` (custom-rules.js). -/
def severityRank : Severity → Nat
  | .error => 0
  | .warning => 1
  | .info => 2

/-- The sort comparator of `checkCustomRules` (custom-rules.js): severity
rank first, then the file path (string comparison modelled by the
lexicographic order on character lists). -/
def violationLe (a b : Violation) : Bool :=
  if severityRank a.severity < severityRank b.severity then true
  else if severityRank b.severity < severityRank a.severity then false
  else decide (a.file ≤ b.file)

/-- The dedup-then-sort tail of `checkCustomRules` (custom-rules.js,
without the optional severity filter): deduplicate across rule sets by
`(file, line, match)` keeping first occurrences, then sort by severity and
file (JavaScript's sort modelled by the stable merge sort). -/
def checkCustomRulesDedupSort (allViolations : List Violation) :
    List Violation :=
  (dedupViolations allViolations []).mergeSort violationLe

theorem violationLe_iff (a b : Violation) :
    violationLe a b = true ↔
      (severityRank a.severity < severityRank b.severity ∨
        (severityRank a.severity = severityRank b.severity ∧
          a.file ≤ b.file)) := by
  unfold violationLe
  split_ifs with h1 h2
  · simp [h1]
  · simp only [Bool.false_eq_true, false_iff]
    rintro (h | ⟨he, -⟩) <;> omega
  · have he : severityRank a.severity = severityRank b.severity := by omega
    simp [he]

theorem violationLe_total (a b : Violation) :
    (violationLe a b || violationLe b a) = true := by
  rw [Bool.or_eq_true, violationLe_iff, violationLe_iff]
  rcases Nat.lt_trichotomy (severityRank a.severity)
    (severityRank b.severity) with hr | hr | hr
  · exact Or.inl (Or.inl hr)
  · rcases le_total a.file b.file with h | h
    · exact Or.inl (Or.inr ⟨hr, h⟩)
    · exact Or.inr (Or.inr ⟨hr.symm, h⟩)
  · exact Or.inr (Or.inl hr)

theorem violationLe_trans (a b c : Violation) (hab : violationLe a b = true)
    (hbc : violationLe b c = true) : violationLe a c = true := by
  rw [violationLe_iff] at hab hbc ⊢
  rcases hab with h1 | ⟨h1, hf1⟩ <;> rcases hbc with h2 | ⟨h2, hf2⟩
  · exact Or.inl (by omega)
  · exact Or.inl (by omega)
  · exact Or.inl (by omega)
  · exact Or.inr ⟨by omega, le_trans hf1 hf2⟩

theorem dedupViolations_subset :
    ∀ (vs : List Violation) (seen : List (Str × Nat × Str)),
      ∀ w ∈ dedupViolations vs seen, w ∈ vs
  | [], _, w, hw => by cases hw
  | v :: rest, seen, w, hw => by
    rw [dedupViolations] at hw
    split at hw
    · exact List.mem_cons_of_mem _ (dedupViolations_subset rest seen w hw)
    · rcases List.mem_cons.mp hw with h | h
      · rw [h]
        exact List.mem_cons_self _ _
      · exact List.mem_cons_of_mem _ (dedupViolations_subset rest _ w h)

theorem dedupViolations_nodup_and_fresh :
    ∀ (vs : List Violation) (seen : List (Str × Nat × Str)),
      ((dedupViolations vs seen).map violationKey).Nodup ∧
        ∀ w ∈ dedupViolations vs seen, violationKey w ∉ seen
  | [], _ => ⟨List.nodup_nil, fun w hw => by cases hw⟩
  | v :: rest, seen => by
    rw [dedupViolations]
    split
    · exact dedupViolations_nodup_and_fresh rest seen
    · rename_i hnot
      obtain ⟨ihn, ihf⟩ := dedupViolations_nodup_and_fresh rest
        (violationKey v :: seen)
      constructor
      · rw [List.map_cons, List.nodup_cons]
        refine ⟨?_, ihn⟩
        intro hmem
        rw [List.mem_map] at hmem
        obtain ⟨w, hw, hkey⟩ := hmem
        exact ihf w hw (hkey ▸ List.mem_cons_self _ _)
      · intro w hw
        rcases List.mem_cons.mp hw with h | h
        · rw [h]
          exact hnot
        · intro hmem
          exact ihf w h (List.mem_cons_of_mem _ hmem)

theorem dedupViolations_find :
    ∀ (vs : List Violation) (seen : List (Str × Nat × Str))
      (k : Str × Nat × Str), k ∉ seen →
      (dedupViolations vs seen).find? (fun w => violationKey w = k) =
        vs.find? (fun w => violationKey w = k)
  | [], _, _, _ => rfl
  | v :: rest, seen, k, hk => by
    rw [dedupViolations]
    split
    · rename_i hseen
      have hne : ¬(violationKey v = k) := fun he => hk (he ▸ hseen)
      rw [List.find?_cons_of_neg _ (by simpa using hne)]
      exact dedupViolations_find rest seen k hk
    · rcases Classical.em (violationKey v = k) with he | he
      · rw [List.find?_cons_of_pos _ (by simpa using he),
          List.find?_cons_of_pos _ (by simpa using he)]
      · rw [List.find?_cons_of_neg _ (by simpa using he),
          List.find?_cons_of_neg _ (by simpa using he)]
        refine dedupViolations_find rest _ k ?_
        intro hmem
        rcases List.mem_cons.mp hmem with h | h
        · exact he h.symm
        · exact hk h

/-- C8: `checkCustomRules` deduplicates the collected violations by the
key `(file, line, matchedText)` — the surviving keys are pairwise
distinct, every surviving violation comes from the input, and for every
key present the survivor is exactly the first input occurrence of that
key — and returns them sorted by severity (error before warning before
info) and then by file path. -/
theorem checkCustomRules_dedup_and_sort (vs : List Violation) :
    ((dedupViolations vs []).map violationKey).Nodup ∧
      (∀ v ∈ vs, (dedupViolations vs []).find?
          (fun w => violationKey w = violationKey v) =
        vs.find? (fun w => violationKey w = violationKey v)) ∧
      (∀ w ∈ dedupViolations vs [], w ∈ vs) ∧
      (checkCustomRulesDedupSort vs).Perm (dedupViolations vs []) ∧
      (checkCustomRulesDedupSort vs).Pairwise
        (fun a b => violationLe a b = true) := by
  refine ⟨(dedupViolations_nodup_and_fresh vs []).1, ?_, ?_, ?_, ?_⟩
  · intro v _
    exact dedupViolations_find vs [] (violationKey v) (by simp)
  · exact dedupViolations_subset vs []
  · exact List.mergeSort_perm (dedupViolations vs []) violationLe
  · exact List.sorted_mergeSort violationLe_trans violationLe_total
      (dedupViolations vs [])

/-- Two violations from different rule sets sharing `(file, line, match)`,
plus an error-severity violation in another file. -/
def demoV1 : Violation :=
  ⟨"r1".toList, "Rule 1".toList, .warning, "b.js".toList, 3,
    "fooBar".toList, "baz".toList⟩

def demoV2 : Violation :=
  ⟨"r2".toList, "Rule 2".toList, .info, "b.js".toList, 3,
    "fooBar".toList, "qux".toList⟩

def demoV3 : Violation :=
  ⟨"r3".toList, "Rule 3".toList, .error, "a.js".toList, 9,
    "evil".toList, "good".toList⟩

/-- C8 (witness): on the concrete list `[demoV1, demoV2, demoV3]` the
duplicate-keyed `demoV2` is dropped in favour of the first occurrence
`demoV1`: exactly `[demoV1, demoV3]` survive the dedup, and the survivor
found for `demoV2`'s key is `demoV1`. -/
theorem checkCustomRules_dedup_and_sort_witness :
    (dedupViolations [demoV1, demoV2, demoV3] []).find?
        (fun w => violationKey w = violationKey demoV2) = some demoV1 ∧
      dedupViolations [demoV1, demoV2, demoV3] [] = [demoV1, demoV3] := by
  obtain ⟨-, hfind, -, -, -⟩ :=
    checkCustomRules_dedup_and_sort [demoV1, demoV2, demoV3]
  refine ⟨?_, by decide⟩
  rw [hfind demoV2 (by decide)]
  decide

/-! ### Liveness / dead-code analyzer (dead-code.js)

File-system walking and acorn parsing are external; a `FileFacts` record
holds what `analyzeFile` extracts from one file, together with the file's
absolute path, modelled as its list of components.  Path arithmetic
(`dirname`, `resolve`, `relative`, the `.js` default extension) is
performed on component lists; a path is rendered back to a string with
`/` separators where the source compares strings. -/

/-- `Array.prototype.join('/')` — render a component path as a string. -/
def strJoinSlash (l : List Str) : Str := (List.intersperse ['/'] l).flatten

/-- Does `s` contain `sub` (JavaScript `String.prototype.includes`)? -/
def strContains (s sub : Str) : Bool := (strIndexOf? s sub).isSome

/-- `path.dirname` on a component path. -/
def dirnameP (p : List Str) : List Str := p.dropLast

/-- `path.resolve(base, spec)` for a relative specifier: process the
specifier's `/`-separated components against the absolute base path,
popping on `..`, skipping `.` and empty components. -/
def resolveP (base : List Str) (spec : Str) : List Str :=
  (strSplit '/' spec).foldl
    (fun acc comp =>
      if comp = ".".toList then acc
      else if comp = "..".toList then acc.dropLast
      else if comp = [] then acc
      else acc ++ [comp]) base

/-- Does the rendered path end in `.js`?  (Components contain no `/`, so
this is the check on the last component.) -/
def endsWithJs (p : List Str) : Bool :=
  ".js".toList.isSuffixOf (p.getLastD [])

/-- Append the default `.js` extension when absent
(`if (!resolvedSource.endsWith('.js')) resolvedSource += '.js'`). -/
def appendJs (p : List Str) : List Str :=
  if endsWithJs p then p else p.dropLast ++ [p.getLastD [] ++ ".js".toList]

/-- `path.relative(base, p)` on normalized absolute component paths. -/
def commonPrefixLen : List Str → List Str → Nat
  | a :: as, b :: bs => if a = b then 1 + commonPrefixLen as bs else 0
  | _, _ => 0

def relativeP (base p : List Str) : List Str :=
  let k := commonPrefixLen base p
  List.replicate (base.length - k) "..".toList ++ p.drop k

/-- Test/spec-file exclusion of `getDeadCode` (dead-code.js):
`file.includes('.test.') || file.includes('/tests/')`. -/
def isTestFilePath (file : Str) : Bool :=
  strContains file ".test.".toList || strContains file "/tests/".toList

/-- Generated-presentation-file exclusion of `getDeadCode` (dead-code.js):
`file.endsWith('.css.js') || file.endsWith('.tpl.js')`. -/
def endsWithCssTpl (file : Str) : Bool :=
  ".css.js".toList.isSuffixOf file || ".tpl.js".toList.isSuffixOf file

/-- What `analyzeFile` (dead-code.js) extracts from one file, plus the
file's absolute component path: declared function/class names with lines,
the call-name set, the exported-name set, the named exports with lines,
and the import specifiers. -/
structure FileFacts where
  path : List Str
  fnDecls : List (Str × Nat)
  clsDecls : List (Str × Nat)
  calls : List Str
  exps : List Str
  namedExports : List (Str × Nat)
  imports : List (Str × Str)
deriving DecidableEq

/-- One reported dead-code item (dead-code.js). -/
structure DeadItem where
  name : Str
  type : Str
  file : Str
  line : Nat
  reason : Str
deriving DecidableEq

/-- The file's path relative to the queried root, as the string
`relative(resolvedDir, file)` the source stores in `fileData`. -/
def fileRel (resolvedDir : List Str) (f : FileFacts) : Str :=
  strJoinSlash (relativeP resolvedDir f.path)

/-- `Map.get(key).add(consumer)` with auto-created sets, on the
`importConsumers` map of `getDeadCode`. -/
def consumersAdd (m : List ((Str × Str) × List Str)) (k : Str × Str)
    (c : Str) : List ((Str × Str) × List Str) :=
  if m.any (fun e => e.1 = k) then
    m.map (fun e =>
      if e.1 = k then (e.1, if c ∈ e.2 then e.2 else e.2 ++ [c]) else e)
  else m ++ [(k, [c])]

/-- The project-wide import scan of `getDeadCode` (dead-code.js): for each
relative import of each project file, resolve the specifier against the
importing file's directory, append the default `.js` extension when
absent, and record the importing file under the key
`importedName@resolvedSourcePath` (both rendered relative to the queried
root). -/
def importConsumersOf (resolvedDir : List Str)
    (projectFiles : List FileFacts) : List ((Str × Str) × List Str) :=
  projectFiles.foldl
    (fun m f =>
      f.imports.foldl
        (fun m imp =>
          if imp.2.head? = some '.' then
            let fileDir := dirnameP f.path
            let resolvedSource := appendJs (resolveP fileDir imp.2)
            let relSource := strJoinSlash (relativeP resolvedDir resolvedSource)
            let relPath := strJoinSlash (relativeP resolvedDir f.path)
            consumersAdd m (imp.1, relSource) relPath
          else m)
        m)
    []

/-- Consumers recorded for one key (`Map.get`, the empty set standing for
a missing entry, which the source treats identically). -/
def lookupConsumers (m : List ((Str × Str) × List Str)) (k : Str × Str) :
    List Str :=
  ((m.find? (fun e => e.1 = k)).map Prod.snd).getD []

/-- All call names across the scanned files (`allCalls`). -/
def allCallsOf (files : List FileFacts) : List Str :=
  (files.map FileFacts.calls).flatten

/-- All exported names across the scanned files (`allExports`). -/
def allExportsOf (files : List FileFacts) : List Str :=
  (files.map FileFacts.exps).flatten

/-- The dead function/class pass of `getDeadCode` (dead-code.js): skip
test and generated files; report a declaration when its name is neither
exported (own file or anywhere), nor called anywhere, nor (for functions)
underscore-prefixed. -/
def deadDeclItems (resolvedDir : List Str) (files : List FileFacts) :
    List DeadItem :=
  (files.map (fun f =>
    let file := fileRel resolvedDir f
    if isTestFilePath file || endsWithCssTpl file then []
    else
      (f.fnDecls.filterMap (fun d =>
        if d.1 ∈ f.exps ∨ d.1 ∈ allExportsOf files then none
        else if d.1 ∈ allCallsOf files then none
        else if d.1.head? = some '_' then none
        else some ⟨d.1, "function".toList, file, d.2, "Never called".toList⟩))
      ++
      (f.clsDecls.filterMap (fun d =>
        if d.1 ∈ f.exps ∨ d.1 ∈ allExportsOf files then none
        else if d.1 ∈ allCallsOf files then none
        else some ⟨d.1, "class".toList, file, d.2,
          "Never instantiated".toList⟩)))).flatten

/-- The orphan-export pass of `getDeadCode` (dead-code.js): a named export
of a non-test file is reported when its name is not used as a call target
in its own file and its `(name, resolved file)` key has no recorded
importer. -/
def deadExportItems (resolvedDir : List Str)
    (projectFiles files : List FileFacts) : List DeadItem :=
  (files.map (fun f =>
    let file := fileRel resolvedDir f
    if isTestFilePath file then []
    else
      f.namedExports.filterMap (fun e =>
        if e.1 ∈ f.calls then none
        else if lookupConsumers (importConsumersOf resolvedDir projectFiles)
            (e.1, file) = [] then
          some ⟨e.1, "export".toList, file, e.2,
            "Exported but never imported".toList⟩
        else none))).flatten

/-- C3: the function/class pass reports a declaration dead only if its
bare name is exported nowhere (neither its own file nor any scanned file)
and is referenced by no call site anywhere; in particular a declaration
whose name appears in the project-wide call set is never reported dead. -/
theorem deadDecl_only_if_unexported_uncalled (resolvedDir : List Str)
    (files : List FileFacts) (item : DeadItem)
    (hmem : item ∈ deadDeclItems resolvedDir files) :
    item.name ∉ allCallsOf files ∧ item.name ∉ allExportsOf files := by
  unfold deadDeclItems at hmem
  rw [List.mem_flatten] at hmem
  obtain ⟨l, hl, hitem⟩ := hmem
  rw [List.mem_map] at hl
  obtain ⟨f, hf, heq⟩ := hl
  rw [← heq] at hitem
  simp only at hitem
  split at hitem
  · cases hitem
  · rw [List.mem_append] at hitem
    rcases hitem with hitem | hitem <;> rw [List.mem_filterMap] at hitem <;>
      obtain ⟨d, hd, heq2⟩ := hitem
    · rcases Classical.em (d.1 ∈ f.exps ∨ d.1 ∈ allExportsOf files) with hc | hc
      · rw [if_pos hc] at heq2
        cases heq2
      · rw [if_neg hc] at heq2
        rcases Classical.em (d.1 ∈ allCallsOf files) with hc2 | hc2
        · rw [if_pos hc2] at heq2
          cases heq2
        · rw [if_neg hc2] at heq2
          rcases Classical.em (d.1.head? = some '_') with hc3 | hc3
          · rw [if_pos hc3] at heq2
            cases heq2
          · rw [if_neg hc3] at heq2
            cases heq2
            exact ⟨hc2, fun hx => hc (Or.inr hx)⟩
    · rcases Classical.em (d.1 ∈ f.exps ∨ d.1 ∈ allExportsOf files) with hc | hc
      · rw [if_pos hc] at heq2
        cases heq2
      · rw [if_neg hc] at heq2
        rcases Classical.em (d.1 ∈ allCallsOf files) with hc2 | hc2
        · rw [if_pos hc2] at heq2
          cases heq2
        · rw [if_neg hc2] at heq2
          cases heq2
          exact ⟨hc2, fun hx => hc (Or.inr hx)⟩

/-- A file declaring a single never-called, never-exported function. -/
def deadDemoFile : FileFacts :=
  ⟨["root".toList, "b.js".toList], [("unusedFn".toList, 2)], [], [], [], [],
    []⟩

/-- C3 (witness): the theorem applied to the concrete project in which
`unusedFn` is reported dead. -/
theorem deadDecl_witness :
    "unusedFn".toList ∉ allCallsOf [deadDemoFile] ∧
      "unusedFn".toList ∉ allExportsOf [deadDemoFile] :=
  deadDecl_only_if_unexported_uncalled ["root".toList] [deadDemoFile]
    ⟨"unusedFn".toList, "function".toList, "b.js".toList, 2,
      "Never called".toList⟩ (by decide)

/-- C4: an ExportBinding of a non-test file is reported dead by the
orphan-export pass exactly when its `(name, resolved file)` key has zero
importer files recorded by the project-wide import scan (relative
specifiers resolved against the importing file's directory with the `.js`
default extension appended) and the exported name is not used as a call
target within its own file. -/
theorem deadExport_iff_zero_importers (resolvedDir : List Str)
    (projectFiles files : List FileFacts)
    (hpaths : (files.map (fileRel resolvedDir)).Nodup)
    (f : FileFacts) (hf : f ∈ files)
    (hnt : isTestFilePath (fileRel resolvedDir f) = false)
    (e : Str × Nat) (he : e ∈ f.namedExports) :
    ((⟨e.1, "export".toList, fileRel resolvedDir f, e.2,
        "Exported but never imported".toList⟩ : DeadItem) ∈
      deadExportItems resolvedDir projectFiles files) ↔
      (lookupConsumers (importConsumersOf resolvedDir projectFiles)
          (e.1, fileRel resolvedDir f) = [] ∧ e.1 ∉ f.calls) := by
  constructor
  · intro hmem
    unfold deadExportItems at hmem
    rw [List.mem_flatten] at hmem
    obtain ⟨l, hl, hitem⟩ := hmem
    rw [List.mem_map] at hl
    obtain ⟨g, hg, heq⟩ := hl
    rw [← heq] at hitem
    simp only at hitem
    split at hitem
    · cases hitem
    · rw [List.mem_filterMap] at hitem
      obtain ⟨e2, he2, heq2⟩ := hitem
      rcases Classical.em (e2.1 ∈ g.calls) with hc | hc
      · rw [if_pos hc] at heq2
        cases heq2
      · rw [if_neg hc] at heq2
        rcases Classical.em
          (lookupConsumers (importConsumersOf resolvedDir projectFiles)
            (e2.1, fileRel resolvedDir g) = []) with hl2 | hl2
        · rw [if_pos hl2] at heq2
          rw [Option.some.injEq, DeadItem.mk.injEq] at heq2
          obtain ⟨hname, -, hfile, -, -⟩ := heq2
          have hgf : g = f := List.inj_on_of_nodup_map hpaths hg hf hfile
          subst hgf
          rw [hname] at hl2 hc
          exact ⟨hl2, hc⟩
        · rw [if_neg hl2] at heq2
          cases heq2
  · rintro ⟨hlk, hnc⟩
    unfold deadExportItems
    rw [List.mem_flatten]
    refine ⟨_, List.mem_map.mpr ⟨f, hf, rfl⟩, ?_⟩
    simp only
    rw [if_neg (by rw [hnt]; simp)]
    rw [List.mem_filterMap]
    refine ⟨e, he, ?_⟩
    rw [if_neg hnc, if_pos hlk]

/-- A file exporting `helperFn`, never importing anything. -/
def exportDemoFile : FileFacts :=
  ⟨["root".toList, "a.js".toList], [], [], [], ["helperFn".toList],
    [("helperFn".toList, 1)], []⟩

/-- A second project file importing a different module, so `helperFn` has
zero importers project-wide. -/
def otherDemoFile : FileFacts :=
  ⟨["root".toList, "c.js".toList], [], [], [], [], [],
    [("otherFn".toList, "./d.js".toList)]⟩

/-- C4 (witness): in the concrete project `[exportDemoFile,
otherDemoFile]` the never-imported export `helperFn` of `a.js` is
reported dead by the orphan-export pass. -/
theorem deadExport_witness :
    (⟨"helperFn".toList, "export".toList,
        fileRel ["root".toList] exportDemoFile, 1,
        "Exported but never imported".toList⟩ : DeadItem) ∈
      deadExportItems ["root".toList] [exportDemoFile, otherDemoFile]
        [exportDemoFile] :=
  (deadExport_iff_zero_importers ["root".toList]
    [exportDemoFile, otherDemoFile] [exportDemoFile] (by decide)
    exportDemoFile (by decide) (by decide) ("helperFn".toList, 1)
    (by decide)).mpr (by decide)
